import Mathlib

/-!
# Verification of the cron scheduling library

A shallow embedding of the cron-style scheduling pipeline implemented in
`index.js`: the `CronSchedule` expression parser and matcher, `nextMatch`,
the `CronEngine` job registry, and the `parseCommandLine` tokenizer.

Timestamps are modelled as `Int` milliseconds since the Unix epoch.  The
host `Date` object is modelled by the proleptic Gregorian calendar with the
local time zone taken to be UTC (offset 0), so every `get*` accessor of
`Date` becomes an arithmetic function of the timestamp.
-/

namespace Cron

/-! ## Calendar model (the host `Date` accessors, local = UTC) -/

/-- One minute in milliseconds (`OneMinute` in the source). -/
def OneMinute : Int := 60 * 1000

/-- `Date.getMilliseconds()` for a timestamp (`/` and `%` on `Int` are
floor-division and its remainder, matching the calendar's behavior). -/
def msOf (t : Int) : Int := t % 1000

/-- `Date.getSeconds()` for a timestamp. -/
def secOf (t : Int) : Int := (t / 1000) % 60

/-- `Date.getMinutes()` for a timestamp. -/
def minuteOf (t : Int) : Int := (t / 60000) % 60

/-- `Date.getHours()` for a timestamp. -/
def hourOf (t : Int) : Int := (t / 3600000) % 24

/-- Days elapsed since 1970-01-01 (floor), the calendar day a timestamp falls in. -/
def daysOf (t : Int) : Int := t / 86400000

/-- `Date.getDay()` expressed on a day number: 1970-01-01 was a Thursday (4). -/
def dowOfDays (z : Int) : Int := (z + 4) % 7

/-- Convert a day number (days since 1970-01-01) to a Gregorian civil date
`(year, month 1-based, day 1-based)`, following the standard civil-from-days
algorithm used by calendar implementations. -/
def civil (z : Int) : Int × Int × Int :=
  let days := z + 719468
  let era := days / 146097
  let doe := days - era * 146097
  let yoe := (doe - doe / 1460 + doe / 36524 - doe / 146096) / 365
  let doy := doe - (365 * yoe + yoe / 4 - yoe / 100)
  let mp := (5 * doy + 2) / 153
  let d := doy - (153 * mp + 2) / 5 + 1
  let m := mp + (if mp < 10 then 3 else -9)
  (era * 400 + yoe + (if m ≤ 2 then 1 else 0), m, d)

/-- `Date.getDate()` (day of month) on a day number. -/
def dayOfDays (z : Int) : Int := (civil z).2.2

/-- `Date.getDate()` for a timestamp. -/
def dayOf (t : Int) : Int := dayOfDays (daysOf t)

/-- `Date.getMonth()` for a timestamp (zero-based, as in the host API). -/
def month0Of (t : Int) : Int := (civil (daysOf t)).2.1 - 1

/-- `Date.getDay()` for a timestamp (0 = Sunday … 6 = Saturday). -/
def dowOf (t : Int) : Int := dowOfDays (daysOf t)

/-! ## `CronSchedule`: parsed representation and matcher -/

/-- The six value sets held in `CronSchedule.#values`: minute, hour,
day-of-month, month (stored zero-based), day-of-week, and the auxiliary
reverse-day-of-month set of strictly negative offsets. -/
structure CronSched where
  minute : List Int
  hour : List Int
  dom : List Int
  month : List Int
  dow : List Int
  rev : List Int
  deriving Repr, DecidableEq

/-- `CronSchedule.#matchesReverse(date)`: for each reverse offset, clone the
date, roll it by `getDate() - offset` via `setDate` (i.e. advance the calendar
day by `-offset` days), and succeed if the rolled date is the 1st of a month. -/
def matchesReverse (s : CronSched) (t : Int) : Bool :=
  s.rev.any (fun offset => dayOfDays (daysOf t - offset) == 1)

/-- `CronSchedule.matches(date)`: false unless milliseconds and seconds are
exactly zero; otherwise conjunction of the five per-field membership checks,
day-of-month disjoined with the reverse match. -/
def matchesB (s : CronSched) (t : Int) : Bool :=
  if !(msOf t == 0 && secOf t == 0) then false
  else
    let matchMinutes := s.minute.contains (minuteOf t)
    let matchHours := s.hour.contains (hourOf t)
    let matchDayOfMonth := s.dom.contains (dayOf t) || matchesReverse s t
    let matchMonth := s.month.contains (month0Of t)
    let matchDayOfWeek := s.dow.contains (dowOf t)
    matchMinutes && matchHours && matchDayOfMonth && matchMonth && matchDayOfWeek

/-- JS `%` (remainder truncating toward zero), as used in `nextMatch`. -/
def jsRem (a b : Int) : Int := Int.tmod a b

/-- The `while (!this.matches(time)) time += OneMinute` loop of `nextMatch`,
given an explicit iteration bound (`none` models non-termination within it). -/
def nextMatchAux (s : CronSched) : Nat → Int → Option Int
  | 0, _ => none
  | fuel + 1, time => if matchesB s time then some time else nextMatchAux s fuel (time + OneMinute)

/-- `CronSchedule.nextMatch(from)`: start at
`from + OneMinute - from % OneMinute` and scan minute by minute. -/
def nextMatchF (s : CronSched) (fuel : Nat) (t : Int) : Option Int :=
  nextMatchAux s fuel (t + OneMinute - jsRem t OneMinute)

/-- The every-minute default schedule `* * * * *` as parsed by the source
(wildcards enumerate the full native domains; months stored zero-based). -/
def everySched : CronSched :=
  { minute := List.range 60 |>.map Int.ofNat
    hour := List.range 24 |>.map Int.ofNat
    dom := List.range 31 |>.map (fun n => Int.ofNat n + 1)
    month := List.range 12 |>.map Int.ofNat
    dow := List.range 8 |>.map Int.ofNat
    rev := [] }

/-! ## The expression parser (`CronSchedule.#parse`)

Errors mirror the `CronScheduleError` throw sites.  The numeric fill loops
(`for (let n = lo; n <= hi; n += step)`) are the only unbounded control flow,
so they carry fuel; `none` in the result models non-termination of the
source. -/

/-- The distinct `CronScheduleError` messages thrown by `#parse`. -/
inductive CronErr
  | invalidAlias
  | invalidFieldCount (n : Nat)
  | illegalField (i : Nat)
  | illegalStep (i : Nat)
  | invalidValue (i : Nat)
  | illegalValue (i : Nat)
  | invalidRange (i : Nat)
  deriving Repr, DecidableEq

instance {ε α : Type} [DecidableEq ε] [DecidableEq α] : DecidableEq (Except ε α) := by
  intro a b
  cases a <;> cases b
  case error.error e f =>
    exact if h : e = f then .isTrue (by rw [h]) else .isFalse (by simp [h])
  case error.ok e y => exact .isFalse (by simp)
  case ok.error x f => exact .isFalse (by simp)
  case ok.ok x y =>
    exact if h : x = y then .isTrue (by rw [h]) else .isFalse (by simp [h])

/-- A parse outcome: `none` = the source diverges, `some (.error e)` = it
throws, `some (.ok a)` = it returns. -/
abbrev PRes (α : Type) : Type := Option (Except CronErr α)

def pok {α : Type} (a : α) : PRes α := some (.ok a)

def perr {α : Type} (e : CronErr) : PRes α := some (.error e)

def pbind {α β : Type} (x : PRes α) (f : α → PRes β) : PRes β :=
  match x with
  | none => none
  | some (.error e) => some (.error e)
  | some (.ok a) => f a

/-- Whitespace for `trim()` and the `/\s+/` squeeze (ASCII range plus NBSP). -/
def isSpaceJS (c : Char) : Bool :=
  c == ' ' || c == '\t' || c == '\n' || c == '\x0b' || c == '\x0c' || c == '\r' || c == ' '

/-- `String.prototype.trim()`. -/
def trimWS (cs : List Char) : List Char :=
  ((cs.dropWhile isSpaceJS).reverse.dropWhile isSpaceJS).reverse

/-- Helper for `squeezeWS`: the flag records whether the previous character
was part of a whitespace run already replaced. -/
def squeezeWSAux (prevSpace : Bool) : List Char → List Char
  | [] => []
  | c :: rest =>
    if isSpaceJS c then
      if prevSpace then squeezeWSAux true rest else ' ' :: squeezeWSAux true rest
    else c :: squeezeWSAux false rest

/-- `replaceAll(/\s+/g, ' ')`: collapse every whitespace run to one space. -/
def squeezeWS (cs : List Char) : List Char := squeezeWSAux false cs

/-- `String.prototype.split(sep)` for a single-character separator. -/
def splitOnCh (sep : Char) : List Char → List (List Char)
  | [] => [[]]
  | c :: rest =>
    match splitOnCh sep rest with
    | [] => [[]]
    | t :: ts => if c = sep then [] :: t :: ts else (c :: t) :: ts

def isDigitCh (c : Char) : Bool := 48 ≤ c.toNat && c.toNat ≤ 57

/-- Value of a nonempty decimal digit string (`parseInt` on digits). -/
def digitsVal (cs : List Char) : Nat :=
  cs.foldl (fun acc c => 10 * acc + (c.toNat - 48)) 0

/-- `parseInt` on an optional minus sign followed by digits. -/
def intOfChars (cs : List Char) : Int :=
  match cs with
  | '-' :: rest => -(digitsVal rest : Int)
  | _ => (digitsVal cs : Int)

/-- `String.prototype.replace(a, b)`: replace the first occurrence only. -/
def replaceFirst (a b : Char) : List Char → List Char
  | [] => []
  | c :: rest => if c = a then b :: rest else c :: replaceFirst a b rest

/-- The anchored regex `^(_?\d+)(?:-(\d+))?$`: on success, the text of the
first capture (with its optional underscore) and of the optional second. -/
def matchValueRegex (cs : List Char) : Option (List Char × Option (List Char)) :=
  let (pre, rest) :=
    match cs with
    | '_' :: r => (['_'], r)
    | _ => (([] : List Char), cs)
  let ds := rest.takeWhile isDigitCh
  let rest2 := rest.dropWhile isDigitCh
  if ds = [] then none
  else
    match rest2 with
    | [] => some (pre ++ ds, none)
    | '-' :: ds2 =>
      if ds2 ≠ [] && ds2.all isDigitCh then some (pre ++ ds, some ds2) else none
    | _ => none

def MonthNames : List (List Char) :=
  ["jan".data, "feb".data, "mar".data, "apr".data, "may".data, "jun".data,
   "jul".data, "aug".data, "sep".data, "oct".data, "nov".data, "dec".data]

def DayNames : List (List Char) :=
  ["sun".data, "mon".data, "tue".data, "wed".data, "thu".data, "fri".data,
   "sat".data, "sun".data]

/-- `Array.prototype.indexOf` of the lowercased word in a name table. -/
def nameIndex (names : List (List Char)) (w : List Char) : Option Int :=
  (names.findIdx? (fun n => n = w.map Char.toLower)).map Int.ofNat

/-- The anchored name regexes `^(name)(?:-(name))?$` (case-insensitive),
resolved through `indexOf` to numeric indexes. -/
def matchNameRegex (names : List (List Char)) (cs : List Char) : Option (Int × Option Int) :=
  match splitOnCh '-' cs with
  | [a] =>
    match nameIndex names a with
    | some i => some (i, none)
    | none => none
  | [a, b] =>
    match nameIndex names a, nameIndex names b with
    | some i, some j => some (i, some j)
    | _, _ => none
  | _ => none

/-- `ValueValidators[fieldIndex]` (note the `n &&` making 0 invalid for
day-of-month). -/
def validates (fieldIndex : Nat) (n : Int) : Bool :=
  match fieldIndex with
  | 0 => 0 ≤ n && n ≤ 59
  | 1 => 0 ≤ n && n ≤ 23
  | 2 => !(n == 0) && -9 ≤ n && n ≤ 31
  | 3 => 1 ≤ n && n ≤ 12
  | 4 => 0 ≤ n && n ≤ 7
  | _ => false

/-- `for (let n = start; n <= hi; n += step) values.add(n)`, fueled: `none`
models the loop never finishing (e.g. `step = 0` with `start ≤ hi`). -/
def fillLoop (hi step : Int) : Nat → Int → Option (List Int)
  | 0, n => if n ≤ hi then none else some []
  | fuel + 1, n =>
    if n ≤ hi then (fillLoop hi step fuel (n + step)).map (fun l => n :: l) else some []

/-- The native wildcard domain `(lo, hi)` of each field. -/
def wildRange (fieldIndex : Nat) : Int × Int :=
  match fieldIndex with
  | 0 => (0, 59)
  | 1 => (0, 23)
  | 2 => (1, 31)
  | 3 => (1, 12)
  | 4 => (0, 7)
  | _ => (1, 0)

/-- `Set.prototype.add`: append if not yet present. -/
def addVal (l : List Int) (n : Int) : List Int :=
  if l.contains n then l else l ++ [n]

/-- The body of `collectNumbers`: validate the first value, and either add it
alone or validate the second, require a strictly increasing range, and fill. -/
def collectNumbers (fieldIndex : Nat) (step : Int) (fuel : Nat)
    (n1 : Int) (n2opt : Option Int) : PRes (List Int) :=
  if !(validates fieldIndex n1) then perr (.illegalValue fieldIndex)
  else
    match n2opt with
    | none => pok [n1]
    | some n2 =>
      if !(validates fieldIndex n2) then perr (.illegalValue fieldIndex)
      else if n2 ≤ n1 then perr (.invalidRange fieldIndex)
      else (fillLoop n2 step fuel n1).map .ok

/-- One comma-separated values expression: numeric regex first, then the
month-name regex (month field only), then the day-name regex (day-of-week
field only), otherwise the "Invalid value / range values" error. -/
def parseValuesExpr (fieldIndex : Nat) (step : Int) (fuel : Nat)
    (ve : List Char) : PRes (List Int) :=
  match matchValueRegex ve with
  | some (first, lastOpt) =>
    collectNumbers fieldIndex step fuel
      (intOfChars (replaceFirst '_' '-' first))
      (lastOpt.map (fun l => (digitsVal l : Int)))
  | none =>
    if fieldIndex = 3 then
      match matchNameRegex MonthNames ve with
      | some (i1, i2opt) => collectNumbers fieldIndex step fuel (i1 + 1) (i2opt.map (· + 1))
      | none => perr (.invalidValue fieldIndex)
    else if fieldIndex = 4 then
      match matchNameRegex DayNames ve with
      | some (i1, i2opt) => collectNumbers fieldIndex step fuel i1 i2opt
      | none => perr (.invalidValue fieldIndex)
    else perr (.invalidValue fieldIndex)

/-- Fold the comma-separated expressions, accumulating into the `Set`. -/
def parseValuesList (fieldIndex : Nat) (step : Int) (fuel : Nat)
    (acc : List Int) : List (List Char) → PRes (List Int)
  | [] => pok acc
  | ve :: rest =>
    pbind (parseValuesExpr fieldIndex step fuel ve) fun vs =>
      parseValuesList fieldIndex step fuel (vs.foldl addVal acc) rest

/-- One field of the expression (`fields.forEach` body before the final
day-of-month/month adjustments): split off the step, then either enumerate
the wildcard domain or parse the comma-separated list. -/
def parseFieldRaw (fieldIndex : Nat) (fuel : Nat) (fieldExpr : List Char) : PRes (List Int) :=
  let parts := splitOnCh '/' fieldExpr
  let valuesListExpr := parts.getD 0 []
  let stepExpr := parts.getD 1 []
  let more := parts.getD 2 []
  if more ≠ [] then perr (.illegalField fieldIndex)
  else
    let stepRes : Except CronErr Int :=
      if stepExpr = [] then .ok 1
      else if stepExpr.all isDigitCh then .ok (digitsVal stepExpr)
      else .error (.illegalStep fieldIndex)
    match stepRes with
    | .error e => perr e
    | .ok step =>
      if valuesListExpr = ['*'] then
        let (lo, hi) := wildRange fieldIndex
        (fillLoop hi step fuel lo).map .ok
      else
        parseValuesList fieldIndex step fuel [] (splitOnCh ',' valuesListExpr)

def ScheduleAlias : List (List Char × List Char) :=
  [("@yearly".data, "0 0 1 1 *".data),
   ("@annually".data, "0 0 1 1 *".data),
   ("@monthly".data, "0 0 1 * *".data),
   ("@weekly".data, "0 0 * * 0".data),
   ("@daily".data, "0 0 * * *".data),
   ("@midnight".data, "0 0 * * *".data),
   ("@hourly".data, "0 * * * *".data)]

/-- The alias substitution: a trimmed expression starting with `@` is looked
up in the alias table; a miss is the "Invalid alias" error. -/
def resolveAlias (trimmed : List Char) : Except CronErr (List Char) :=
  match trimmed with
  | '@' :: _ =>
    match ScheduleAlias.lookup trimmed with
    | some repl => .ok repl
    | none => .error .invalidAlias
  | _ => .ok trimmed

/-- `CronSchedule.#parse`: trim and squeeze whitespace, substitute aliases,
split into exactly five fields, parse each field in order, then segregate
negative day-of-month values into the reverse set and make months
zero-based. -/
def parseCronL (fuel : Nat) (cs : List Char) : PRes CronSched :=
  match resolveAlias (squeezeWS (trimWS cs)) with
  | .error e => perr e
  | .ok expr =>
    let fields := splitOnCh ' ' expr
    if fields.length = 5 then
      pbind (parseFieldRaw 0 fuel (fields.getD 0 [])) fun v0 =>
      pbind (parseFieldRaw 1 fuel (fields.getD 1 [])) fun v1 =>
      pbind (parseFieldRaw 2 fuel (fields.getD 2 [])) fun v2 =>
      pbind (parseFieldRaw 3 fuel (fields.getD 3 [])) fun v3 =>
      pbind (parseFieldRaw 4 fuel (fields.getD 4 [])) fun v4 =>
      pok { minute := v0
            hour := v1
            dom := v2.filter (fun n => 0 < n)
            month := v3.map (fun n => n - 1)
            dow := v4
            rev := v2.filter (fun n => n < 0) }
    else perr (.invalidFieldCount fields.length)

/-- Default fuel for the fill loops: every terminating fill in the source
runs at most 60 iterations. -/
def FillFuel : Nat := 100

/-- `new CronSchedule(expression)` (the parsed value sets). -/
def parseCron (s : String) : PRes CronSched := parseCronL FillFuel s.data

/-! ## `CronEngine`: the job registry

The host file-system check `existsSync` is modelled as an oracle
`fsExists : String → Bool` passed to `registerJob`.  The repeating timer is
modelled by its armed target expiration (`none` = no timer armed). -/

/-- The `task` argument of `registerJob`: an inline function (identified
opaquely), an external module path, or a value of any other type. -/
inductive TaskArg
  | func (f : Nat)
  | module (path : String)
  | invalid
  deriving Repr, DecidableEq

/-- The `schedule` argument of `registerJob`: text, an already-parsed
`CronSchedule`, or a value of any other type. -/
inductive SchedArg
  | text (s : String)
  | parsed (c : CronSched)
  | invalid
  deriving Repr, DecidableEq

/-- The errors `registerJob` can throw. -/
inductive RegErr
  | typeErr
  | schedErr (e : CronErr)
  | notFound
  deriving Repr, DecidableEq

/-- An entry of the internal job map. -/
structure Job where
  schedule : CronSched
  task : TaskArg
  args : List String
  fork : Bool
  deriving Repr, DecidableEq

/-- The `CronEngine` state: the job map, the id counter, and the armed
timer's target expiration. -/
structure Engine where
  jobs : List (Nat × Job) := []
  counter : Nat := 0
  timer : Option Int := none
  deriving Repr, DecidableEq

/-- `Map.prototype.set`: replace in place, or append a new key. -/
def mapSet {α : Type} (m : List (Nat × α)) (k : Nat) (v : α) : List (Nat × α) :=
  match m with
  | [] => [(k, v)]
  | (k', v') :: rest => if k' = k then (k, v) :: rest else (k', v') :: mapSet rest k v

/-- `CronEngine.registerJob`: validate the schedule (parsing text), validate
the task's type, eagerly check a module path's existence, and only then
increment the counter and insert the job.  The engine state is returned
alongside: every throw happens before any mutation, so failures return the
state unchanged.  `none` models a diverging schedule parse. -/
def registerJob (fsExists : String → Bool) (e : Engine) (schedule : SchedArg)
    (task : TaskArg) (args : List String) (fork : Bool) :
    Option (Except RegErr Nat × Engine) :=
  let schedRes : PRes CronSched :=
    match schedule with
    | .text s => parseCron s
    | .parsed c => pok c
    | .invalid => perr (.invalidAlias)
  match schedule, schedRes with
  | .invalid, _ => some (.error .typeErr, e)
  | _, none => none
  | _, some (.error err) => some (.error (.schedErr err), e)
  | _, some (.ok sched) =>
    match task with
    | .invalid => some (.error .typeErr, e)
    | .func f =>
      let id := e.counter + 1
      some (.ok id, { e with counter := id, jobs := mapSet e.jobs id ⟨sched, .func f, args, fork⟩ })
    | .module path =>
      if !fsExists path then some (.error .notFound, e)
      else
        let id := e.counter + 1
        some (.ok id, { e with counter := id, jobs := mapSet e.jobs id ⟨sched, .module path, args, fork⟩ })

/-- `CronEngine.deregisterJob`: only the job map is touched. -/
def deregisterJob (e : Engine) (jobId : Int) : Bool × Engine :=
  if jobId ≠ 0 ∧ jobId > 0 then
    ((e.jobs.any (fun p => (p.1 : Int) = jobId)),
     { e with jobs := e.jobs.filter (fun p => (p.1 : Int) ≠ jobId) })
  else (false, e)

/-- `CronEngine.deregisterAllJobs`: clears the map AND resets the counter. -/
def deregisterAllJobs (e : Engine) : Engine :=
  { e with jobs := [], counter := 0 }

/-- `CronEngine.listJobs`: snapshot of the entries sorted ascending by id. -/
def listJobs (e : Engine) : List (Nat × Job) :=
  e.jobs.insertionSort (fun a b => a.1 ≤ b.1)

/-- `CronEngine.#setTimer()` with no arguments: arm the timer for the next
exact minute boundary after the current time. -/
def setTimerInit (e : Engine) (now : Int) : Engine :=
  { e with timer := some (now + (OneMinute - jsRem now OneMinute)) }

/-- `CronEngine.start()`. -/
def engineStart (e : Engine) (now : Int) : Bool × Engine :=
  if e.timer.isSome then (false, e) else (true, setTimerInit e now)

/-- `CronEngine.stop()`. -/
def engineStop (e : Engine) : Bool × Engine :=
  if e.timer.isSome then (true, { e with timer := none }) else (false, e)

/-- `CronEngine.isRunning`. -/
def isRunning (e : Engine) : Bool := e.timer.isSome

/-- `new CronEngine(options)`: start immediately unless `delayStart`. -/
def mkEngine (delayStart : Bool) (now : Int) : Engine :=
  if !delayStart then (engineStart {} now).2 else {}

/-- `new CronEngine()`: the options default applies `delayStart: false`. -/
def mkEngineDefault (now : Int) : Engine := mkEngine false now

/-! ## The `parseCommandLine` tokenizer

Characters are modelled by their code points (`Nat`), since escape sequences
can produce arbitrary UTF-16 code units. -/

/-- The states of the tokenizer's state machine. -/
inductive TState
  | separator
  | unquoted
  | singleQuoted
  | doubleQuoted
  | charEscape
  | hexCode
  deriving Repr, DecidableEq

/-- The tokenizer's mutable context: current and previous state, the hex-code
buffer and its expected length, the token being accumulated, and the result
array. -/
structure TokCfg where
  state : TState := .separator
  prev : TState := .separator
  code : List Nat := []
  codeLen : Nat := 0
  token : List Nat := []
  tokens : List (List Nat) := []
  deriving Repr, DecidableEq

/-- The errors `parseCommandLine` can throw. -/
inductive TokErr
  | unbalancedSingle
  | unbalancedDouble
  | invalidHex
  deriving Repr, DecidableEq

/-- `switchState(newState)`: records the previous state except when entering
the hex-code state. -/
def switchSt (cfg : TokCfg) (ns : TState) : TokCfg :=
  if ns ≠ .hexCode then { cfg with prev := cfg.state, state := ns }
  else { cfg with state := ns }

/-- Code points considered whitespace by `String.prototype.trim()`. -/
def isWSCode (n : Nat) : Bool :=
  n == 9 || n == 10 || n == 11 || n == 12 || n == 13 || n == 32 || n == 160

/-- Trim the whitespace off both ends of a token. -/
def trimCodes (cs : List Nat) : List Nat :=
  ((cs.dropWhile isWSCode).reverse.dropWhile isWSCode).reverse

/-- `newToken()`: save the trimmed current token (when nonempty) and reset. -/
def newToken0 (cfg : TokCfg) : TokCfg :=
  if cfg.token ≠ [] then
    { cfg with tokens := cfg.tokens ++ [trimCodes cfg.token], token := [] }
  else cfg

/-- `newToken(c)`: as `newToken()`, then start the new token with `c`. -/
def newTokenC (cfg : TokCfg) (c : Nat) : TokCfg :=
  let cfg' := newToken0 cfg
  { cfg' with token := cfg'.token ++ [c] }

/-- `letterToChar`: the control-letter escapes b, t, n, v, f, r. -/
def letterToChar (c : Nat) : Nat :=
  if c = 98 then 8
  else if c = 116 then 9
  else if c = 110 then 10
  else if c = 118 then 11
  else if c = 102 then 12
  else if c = 114 then 13
  else 0

/-- `newCode(c)`: reset the buffer, expecting 2 digits for `x`, 4 for `u`. -/
def newCode (cfg : TokCfg) (c : Nat) : TokCfg :=
  { cfg with code := [], codeLen := if c = 120 then 2 else 4 }

/-- `parseInt(c, 16)` on one character, `none` when not a hex digit. -/
def hexVal (n : Nat) : Option Nat :=
  if 48 ≤ n ∧ n ≤ 57 then some (n - 48)
  else if 97 ≤ n ∧ n ≤ 102 then some (n - 87)
  else if 65 ≤ n ∧ n ≤ 70 then some (n - 55)
  else none

/-- `codeToChar()`: fold the buffered hex digits; a non-hex digit throws. -/
def codeToChar (code : List Nat) : Except TokErr Nat :=
  match code.foldl
      (fun acc c =>
        match acc, hexVal c with
        | some n, some d => some (n * 16 + d)
        | _, _ => none) (some 0) with
  | some n => .ok n
  | none => .error .invalidHex

/-- Whitespace characters recognized in the separator and unquoted states
(space, backspace, tab, newline, vertical tab, form feed, carriage return). -/
def sepWS (c : Nat) : Bool :=
  c == 32 || c == 8 || c == 9 || c == 10 || c == 11 || c == 12 || c == 13

/-- One iteration of the tokenizer's character loop. -/
def stepTok (cfg : TokCfg) (c : Nat) : Except TokErr TokCfg :=
  match cfg.state with
  | .separator =>
    if c = 39 then .ok (newToken0 (switchSt cfg .singleQuoted))
    else if c = 34 then .ok (newToken0 (switchSt cfg .doubleQuoted))
    else if sepWS c then .ok cfg
    else .ok (newTokenC (switchSt cfg .unquoted) c)
  | .unquoted =>
    if c = 39 then .ok (newToken0 (switchSt cfg .singleQuoted))
    else if c = 34 then .ok (newToken0 (switchSt cfg .doubleQuoted))
    else if sepWS c then .ok (newToken0 (switchSt cfg .separator))
    else .ok { cfg with token := cfg.token ++ [c] }
  | .singleQuoted =>
    if c = 39 then .ok (newToken0 (switchSt cfg .separator))
    else if c = 92 then .ok (switchSt cfg .charEscape)
    else .ok { cfg with token := cfg.token ++ [c] }
  | .doubleQuoted =>
    if c = 34 then .ok (newToken0 (switchSt cfg .separator))
    else if c = 92 then .ok (switchSt cfg .charEscape)
    else .ok { cfg with token := cfg.token ++ [c] }
  | .charEscape =>
    if c = 39 ∨ c = 34 ∨ c = 92 then .ok { cfg with token := cfg.token ++ [c] }
    else if c = 98 ∨ c = 116 ∨ c = 110 ∨ c = 118 ∨ c = 102 ∨ c = 114 then
      .ok { cfg with token := cfg.token ++ [letterToChar c] }
    else if c = 120 ∨ c = 117 then .ok (newCode (switchSt cfg .hexCode) c)
    else .ok (switchSt { cfg with token := cfg.token ++ [c] } cfg.prev)
  | .hexCode =>
    if cfg.code.length < cfg.codeLen then .ok { cfg with code := cfg.code ++ [c] }
    else
      match codeToChar cfg.code with
      | .error e => .error e
      | .ok ch => .ok (switchSt { cfg with token := cfg.token ++ [ch] } cfg.prev)

/-- The tokenizer's character loop. -/
def runTok : TokCfg → List Nat → Except TokErr TokCfg
  | cfg, [] => .ok cfg
  | cfg, c :: rest =>
    match stepTok cfg c with
    | .error e => .error e
    | .ok cfg' => runTok cfg' rest

/-- After the loop: save the last token, then check for unbalanced quotes. -/
def finishTok (cfg : TokCfg) : Except TokErr (List (List Nat)) :=
  let cfg' := newToken0 cfg
  if cfg'.state = .singleQuoted then .error .unbalancedSingle
  else if cfg'.state = .doubleQuoted then .error .unbalancedDouble
  else .ok cfg'.tokens

/-- `parseCommandLine(input)` over a list of character codes. -/
def parseCommandLine (input : List Nat) : Except TokErr (List (List Nat)) :=
  match runTok {} input with
  | .error e => .error e
  | .ok cfg => finishTok cfg

/-- The code points of a string (all our concrete inputs are in the BMP). -/
def strCodes (s : String) : List Nat := s.data.map Char.toNat

/-! ## Further definitions used by the statements -/

/-- The specification's reading of `matches` (§4.1/§8 of the spec): `t` is an
exact minute boundary, each calendar field is a member of its parsed set, and
day-of-month membership may be replaced by a strictly negative reverse offset
rolling the date onto the 1st of a month. -/
def specMatches (s : CronSched) (t : Int) : Prop :=
  t % 60000 = 0 ∧
  minuteOf t ∈ s.minute ∧ hourOf t ∈ s.hour ∧
  month0Of t ∈ s.month ∧ dowOf t ∈ s.dow ∧
  (dayOf t ∈ s.dom ∨ ∃ o ∈ s.rev, o < 0 ∧ dayOfDays (daysOf t + (-o)) = 1)

/-- The parsed value sets of `"0 0 * * 7"`. -/
def sched7 : CronSched :=
  { everySched with minute := [0], hour := [0], dow := [7] }

/-- The parsed value sets of `"0 0 30 2 *"` (30th of February). -/
def sched30Feb : CronSched :=
  { everySched with minute := [0], hour := [0], dom := [30], month := [1] }

/-- A registry operation: register a job (with empty extra arguments),
deregister one id, or deregister everything. -/
inductive EngOp
  | reg (schedule : SchedArg) (task : TaskArg)
  | dereg (jobId : Int)
  | deregAll
  deriving Repr, DecidableEq

/-- Run a sequence of registry operations, collecting the ids returned by the
successful `registerJob` calls in order.  A diverging `registerJob` stops the
program. -/
def runOps (fs : String → Bool) : Engine → List EngOp → Engine × List Nat
  | e, [] => (e, [])
  | e, .reg sch tsk :: rest =>
    match registerJob fs e sch tsk [] false with
    | some (.ok id, e') =>
      let p := runOps fs e' rest
      (p.1, id :: p.2)
    | some (.error _, e') => runOps fs e' rest
    | none => (e, [])
  | e, .dereg j :: rest => runOps fs (deregisterJob e j).2 rest
  | e, .deregAll :: rest => runOps fs (deregisterAllJobs e) rest

/-! ## Helper lemmas -/

/-- Linear bounds on the civil algorithm's day-of-year: once every quotient is
abstracted with its floor characterization, the day-of-year lies in
`[0, 365]`. -/
lemma doy_bounds (doe q1 q2 q3 yoe p q : Int)
    (h0 : 0 ≤ doe) (h1 : doe < 146097)
    (hq1 : 1460 * q1 ≤ doe ∧ doe < 1460 * q1 + 1460)
    (hq2 : 36524 * q2 ≤ doe ∧ doe < 36524 * q2 + 36524)
    (hq3 : 146096 * q3 ≤ doe ∧ doe < 146096 * q3 + 146096)
    (hyoe : 365 * yoe ≤ doe - q1 + q2 - q3 ∧ doe - q1 + q2 - q3 < 365 * yoe + 365)
    (hp : 4 * p ≤ yoe ∧ yoe < 4 * p + 4)
    (hq : 100 * q ≤ yoe ∧ yoe < 100 * q + 100) :
    0 ≤ doe - (365 * yoe + p - q) ∧ doe - (365 * yoe + p - q) ≤ 365 := by
  have h2 : 0 ≤ q2 ∧ q2 ≤ 4 := by omega
  have h3 : 0 ≤ q3 ∧ q3 ≤ 1 := by omega
  have h4 : 0 ≤ q ∧ q ≤ 3 := by omega
  obtain ⟨h2a, h2b⟩ := h2
  obtain ⟨h3a, h3b⟩ := h3
  obtain ⟨h4a, h4b⟩ := h4
  constructor
  · interval_cases q2 <;> interval_cases q3 <;> interval_cases q <;> omega
  · interval_cases q2 <;> interval_cases q3 <;> interval_cases q <;> omega

/-- In the civil calendar of the model, a date in month 2 (February) has day
at most 29 — no schedule can demand February 30th of any year. -/
lemma civil_month2_day_le (z : Int) (hm : (civil z).2.1 = 2) : (civil z).2.2 ≤ 29 := by
  simp only [civil] at hm ⊢
  set days := z + 719468 with hdays
  set era := days / 146097 with hera
  set doe := days - era * 146097 with hdoe
  set q1 := doe / 1460 with hq1d
  set q2 := doe / 36524 with hq2d
  set q3 := doe / 146096 with hq3d
  set yoe := (doe - q1 + q2 - q3) / 365 with hyoed
  set p := yoe / 4 with hpd
  set q := yoe / 100 with hqd
  set doy := doe - (365 * yoe + p - q) with hdoyd
  set mp := (5 * doy + 2) / 153 with hmpd
  have hdoe0 : 0 ≤ doe ∧ doe < 146097 := by rw [hdoe, hera]; omega
  have hb := doy_bounds doe q1 q2 q3 yoe p q hdoe0.1 hdoe0.2
    (by rw [hq1d]; omega) (by rw [hq2d]; omega) (by rw [hq3d]; omega)
    (by rw [hyoed]; omega) (by rw [hpd]; omega) (by rw [hqd]; omega)
  rw [← hdoyd] at hb
  split_ifs at hm ⊢ with h1
  · exfalso
    have : 0 ≤ mp := by rw [hmpd]; omega
    omega
  · have hmp11 : mp = 11 := by omega
    rw [hmp11]
    omega

/-- The February-30th schedule matches no timestamp at all. -/
lemma matches30Feb_false (t : Int) : matchesB sched30Feb t = false := by
  unfold matchesB
  split
  · rfl
  · by_cases hm : month0Of t = 1
    · have h2 : (civil (daysOf t)).2.1 = 2 := by unfold month0Of at hm; omega
      have hd : dayOf t ≤ 29 := civil_month2_day_le _ h2
      have hne : dayOf t ≠ 30 := by omega
      simp [sched30Feb, everySched, matchesReverse, hne]
    · simp [sched30Feb, everySched, hm]

/-- If a schedule matches nothing, the `nextMatch` scan loop never returns. -/
lemma nextMatchAux_none (s : CronSched) (hall : ∀ t, matchesB s t = false) :
    ∀ (fuel : Nat) (time : Int), nextMatchAux s fuel time = none := by
  intro fuel
  induction fuel with
  | zero => intro time; rfl
  | succ n ih => intro time; simp [nextMatchAux, hall, ih]

/-! ## Claim theorems -/

/-- C4: day-of-week 7 is NOT treated as Sunday by `matches`.  `"0 0 * * 7"`
parses to the day-of-week set `{7}`, but `matches` compares it against
`getDay() ∈ 0..6`, so the schedule rejects a Sunday midnight
(2025-06-22T00:00) even though every other field membership holds. -/
theorem c4_dow7_not_sunday :
    parseCron "0 0 * * 7" = pok sched7 ∧
    dowOf 1750550400000 = 0 ∧
    minuteOf 1750550400000 ∈ sched7.minute ∧
    hourOf 1750550400000 ∈ sched7.hour ∧
    dayOf 1750550400000 ∈ sched7.dom ∧
    month0Of 1750550400000 ∈ sched7.month ∧
    matchesB sched7 1750550400000 = false := by
  refine ⟨by decide, by decide, by decide, by decide, by decide, by decide, by decide⟩

/-- C5 counterexample: `"0 0 30 2 *"` is accepted by the parser, but February
never has a 30th day, so the minute-by-minute scan of `nextMatch` runs
forever: no iteration bound makes it return. -/
theorem c5_counterexample :
    parseCron "0 0 30 2 *" = pok sched30Feb ∧
    ¬ ∃ (fuel : Nat) (r : Int), nextMatchF sched30Feb fuel 0 = some r := by
  refine ⟨by decide, ?_⟩
  rintro ⟨fuel, r, h⟩
  rw [nextMatchF, nextMatchAux_none sched30Feb matches30Feb_false] at h
  exact Option.noConfusion h

/-- If a schedule matches `time + 60000·k`, the scan loop starting at `time`
returns within `k + 1` iterations. -/
lemma nextMatchAux_reaches (s : CronSched) :
    ∀ (k : Nat) (time : Int), matchesB s (time + 60000 * k) = true →
      ∃ r, nextMatchAux s (k + 1) time = some r := by
  intro k
  induction k with
  | zero =>
    intro time h
    simp only [Nat.cast_zero, mul_zero, add_zero] at h
    exact ⟨time, by simp [nextMatchAux, h]⟩
  | succ n ih =>
    intro time h
    by_cases h0 : matchesB s time
    · exact ⟨time, by simp [nextMatchAux, h0]⟩
    · have harg : time + 60000 * ((n : Int) + 1) = (time + OneMinute) + 60000 * n := by
        simp [OneMinute]; ring
      have h' : matchesB s ((time + OneMinute) + 60000 * n) = true := by
        rw [← harg]
        simpa [Nat.cast_succ] using h
      obtain ⟨r, hr⟩ := ih (time + OneMinute) h'
      refine ⟨r, ?_⟩
      rw [nextMatchAux, if_neg h0]
      exact hr

/-- C5 amended: `nextMatch(from)` does terminate whenever some exact minute
boundary at or after its scan start matches the schedule; the sparsest
satisfiable schedules find a match within about a year of boundaries.
(Accepted schedules that can never match, such as `"0 0 30 2 *"`, make the
scan loop forever, per the counterexample.) -/
theorem c5_nextMatch_terminates (s : CronSched) (t t0 : Int)
    (hm : matchesB s t0 = true) (hdvd : (60000 : Int) ∣ t0)
    (hle : t + OneMinute - jsRem t OneMinute ≤ t0) :
    ∃ (fuel : Nat) (r : Int), nextMatchF s fuel t = some r := by
  set start := t + OneMinute - jsRem t OneMinute with hstart
  have hsdvd : (60000 : Int) ∣ start := by
    refine ⟨t.tdiv 60000 + 1, ?_⟩
    rw [hstart, jsRem, Int.tmod_def]
    simp [OneMinute]
    ring
  obtain ⟨a, ha⟩ := hdvd
  obtain ⟨b, hb⟩ := hsdvd
  have hab : b ≤ a := by nlinarith [hle, ha, hb]
  set k := (a - b).toNat with hk
  have hkcast : (k : Int) = a - b := by rw [hk]; omega
  have ht0 : t0 = start + 60000 * k := by rw [ha, hb, hkcast]; ring
  obtain ⟨r, hr⟩ := nextMatchAux_reaches s k start (by rw [← ht0]; exact hm)
  exact ⟨k + 1, r, hr⟩

/-- C5 amended witness at a concrete instance. -/
theorem c5_nextMatch_terminates_witness :
    ∃ (fuel : Nat) (r : Int), nextMatchF everySched fuel 0 = some r :=
  c5_nextMatch_terminates everySched 0 60000 (by decide) ⟨1, by decide⟩ (by decide)

/-- Inversion for `pbind`: success means the first computation succeeded. -/
lemma pbind_pok {α β : Type} {x : PRes α} {f : α → PRes β} {b : β}
    (h : pbind x f = pok b) : ∃ a, x = pok a ∧ f a = pok b := by
  match x with
  | none => exact absurd h (by simp [pbind, pok])
  | some (.error e) => exact absurd h (by simp [pbind, pok])
  | some (.ok a) => exact ⟨a, rfl, by simpa [pbind] using h⟩

/-- Every member of the reverse day-of-month set of a successfully parsed
schedule is strictly negative (it is the `filter (n < 0)` of the raw
day-of-month values). -/
lemma parseCronL_rev_neg (fuel : Nat) (cs : List Char) (s : CronSched)
    (h : parseCronL fuel cs = pok s) : ∀ o ∈ s.rev, o < 0 := by
  unfold parseCronL at h
  cases hA : resolveAlias (squeezeWS (trimWS cs)) with
  | error e => rw [hA] at h; simp [perr, pok] at h
  | ok expr =>
    rw [hA] at h
    simp only [] at h
    split_ifs at h with hlen
    · obtain ⟨v0, h0, h⟩ := pbind_pok h
      obtain ⟨v1, h1, h⟩ := pbind_pok h
      obtain ⟨v2, h2, h⟩ := pbind_pok h
      obtain ⟨v3, h3, h⟩ := pbind_pok h
      obtain ⟨v4, h4, h⟩ := pbind_pok h
      simp only [pok, Option.some.injEq, Except.ok.injEq] at h
      have hrev : s.rev = v2.filter (fun n => n < 0) := by rw [← h]
      intro o ho
      rw [hrev] at ho
      simp [List.mem_filter] at ho
      exact ho.2
    · simp [perr, pok] at h

/-- Propositional reading of `matchesB`, in the structure of the source. -/
lemma matchesB_iff (s : CronSched) (t : Int) :
    matchesB s t = true ↔
      (msOf t = 0 ∧ secOf t = 0) ∧ minuteOf t ∈ s.minute ∧ hourOf t ∈ s.hour ∧
      (dayOf t ∈ s.dom ∨ ∃ o ∈ s.rev, dayOfDays (daysOf t - o) = 1) ∧
      month0Of t ∈ s.month ∧ dowOf t ∈ s.dow := by
  unfold matchesB matchesReverse
  split_ifs with hb
  · simp only [Bool.not_eq_true', Bool.and_eq_false_iff, beq_eq_false_iff_ne, ne_eq] at hb
    simp only [false_iff]
    rintro ⟨⟨h1, h2⟩, -⟩
    rcases hb with hb | hb
    · exact hb h1
    · exact hb h2
  · have hb' : msOf t = 0 ∧ secOf t = 0 := by
      simpa [Bool.not_eq_false, Bool.and_eq_true, beq_iff_eq] using hb
    simp only [Bool.and_eq_true, Bool.or_eq_true, List.contains, List.elem_iff,
      List.any_eq_true, beq_iff_eq]
    tauto

/-- C1: for every expression the parser accepts and every timestamp,
`matches(t)` is true exactly when `t` is an exact minute boundary (zero
milliseconds and seconds ⟺ `t ≡ 0 mod 60000`), the local minute, hour,
zero-based month, and day-of-week are members of their parsed sets, and
either the local day-of-month is in the day-of-month set or some strictly
negative reverse offset `o` rolls the date forward by `|o|` days onto the
1st of a month. -/
theorem c1_matches_iff_spec (expr : String) (s : CronSched)
    (h : parseCron expr = pok s) (t : Int) :
    matchesB s t = true ↔ specMatches s t := by
  have hrev : ∀ o ∈ s.rev, o < 0 := parseCronL_rev_neg _ _ _ h
  rw [matchesB_iff]
  unfold specMatches
  constructor
  · rintro ⟨⟨h1, h2⟩, hm, hh, hd, hM, hw⟩
    refine ⟨by unfold msOf at h1; unfold secOf at h2; omega, hm, hh, hM, hw, ?_⟩
    rcases hd with hd | ⟨o, ho, hroll⟩
    · exact .inl hd
    · exact .inr ⟨o, ho, hrev o ho, by rwa [sub_eq_add_neg] at hroll⟩
  · rintro ⟨h60, hm, hh, hM, hw, hd⟩
    have hms : msOf t = 0 ∧ secOf t = 0 := by unfold msOf secOf; omega
    refine ⟨hms, hm, hh, ?_, hM, hw⟩
    rcases hd with hd | ⟨o, ho, -, hroll⟩
    · exact .inl hd
    · exact .inr ⟨o, ho, by rwa [sub_eq_add_neg]⟩

/-- C1 witness at a concrete instance. -/
theorem c1_matches_iff_spec_witness :
    matchesB everySched 1750216980000 = true ↔ specMatches everySched 1750216980000 :=
  c1_matches_iff_spec "* * * * *" everySched (by decide) 1750216980000

/-- Soundness of the scan loop: a returned value is a match, lies at a
whole number of minutes past the scan start, and no earlier such point is a
match. -/
lemma nextMatchAux_sound (s : CronSched) :
    ∀ (fuel : Nat) (time r : Int), nextMatchAux s fuel time = some r →
      matchesB s r = true ∧ time ≤ r ∧ (60000 : Int) ∣ (r - time) ∧
      ∀ u : Int, time ≤ u → u < r → (60000 : Int) ∣ (u - time) → matchesB s u = false := by
  intro fuel
  induction fuel with
  | zero => intro time r h; exact Option.noConfusion h
  | succ n ih =>
    intro time r h
    rw [nextMatchAux] at h
    by_cases h0 : matchesB s time
    · rw [if_pos h0] at h
      injection h with h
      subst h
      exact ⟨h0, le_refl _, ⟨0, by ring⟩,
        fun u hu1 hu2 _ => absurd (lt_of_le_of_lt hu1 hu2) (lt_irrefl _)⟩
    · rw [if_neg h0] at h
      obtain ⟨hm, hle, ⟨c, hc⟩, hmin⟩ := ih (time + OneMinute) r h
      have hOM : OneMinute = 60000 := by norm_num [OneMinute]
      rw [hOM] at hle hc hmin
      refine ⟨hm, by omega, ⟨c + 1, by omega⟩, ?_⟩
      rintro u hu1 hu2 ⟨d, hd⟩
      by_cases hu : u = time
      · subst hu
        exact Bool.eq_false_iff.mpr h0
      · have hlt : 0 < u - time := by omega
        have hge : (60000 : Int) ≤ u - time := Int.le_of_dvd hlt ⟨d, hd⟩
        exact hmin u (by omega) hu2 ⟨d - 1, by omega⟩

/-- C2 counterexample: for a negative `from`, the JS remainder in
`from + OneMinute - from % OneMinute` is negative, so the scan starts more
than a minute ahead.  With `"* * * * *"` and `from = -90000`
(1969-12-31T23:58:30 local), `nextMatch` returns 0 although -60000
(1969-12-31T23:59:00) is an exact minute boundary strictly after `from` that
matches. -/
theorem c2_counterexample :
    nextMatchF everySched 1 (-90000) = some 0 ∧
    nextMatchF everySched 1000 (-90000) = some 0 ∧
    matchesB everySched (-60000) = true ∧
    (-90000 : Int) < -60000 ∧ (-60000 : Int) < 0 ∧
    (60000 : Int) ∣ (-60000 : Int) ∧
    parseCron "* * * * *" = pok everySched := by
  exact ⟨by decide, by decide, by decide, by decide, by decide, ⟨-1, by decide⟩, by decide⟩

/-- C2 amended: for every NON-NEGATIVE `from`, `nextMatch(from)` returns the
earliest exact minute boundary strictly after `from` at which `matches` is
true: whatever the scan returns satisfies `matches`, lies strictly after
`from`, and no earlier boundary after `from` matches; and whenever any
matching boundary lies strictly after `from`, the scan does return.  (For
negative `from` the truncating `%` breaks the minimality, per the
counterexample.) -/
theorem c2_nextMatch_earliest (s : CronSched) (t : Int) (ht : 0 ≤ t) :
    (∀ (r : Int) (fuel : Nat), nextMatchF s fuel t = some r →
      matchesB s r = true ∧ (60000 : Int) ∣ r ∧ t < r ∧
      ∀ u : Int, t < u → u < r → (60000 : Int) ∣ u → matchesB s u = false) ∧
    (∀ t0 : Int, matchesB s t0 = true → (60000 : Int) ∣ t0 → t < t0 →
      ∃ (fuel : Nat) (r : Int), nextMatchF s fuel t = some r) := by
  have hOM : OneMinute = 60000 := by norm_num [OneMinute]
  have htmod : jsRem t OneMinute = t % 60000 := by
    rw [jsRem, hOM, Int.tmod_def, Int.tdiv_eq_ediv ht (by norm_num), Int.emod_def]
  constructor
  · intro r fuel h
    rw [nextMatchF] at h
    obtain ⟨hm, hle, ⟨c, hc⟩, hmin⟩ := nextMatchAux_sound s fuel _ r h
    rw [htmod, hOM] at hle hc hmin
    have hstart : (60000 : Int) ∣ (t + 60000 - t % 60000) := by omega
    have htlt : t < t + 60000 - t % 60000 := by omega
    refine ⟨hm, by omega, by omega, ?_⟩
    intro u hu1 hu2 hud
    have hustart : t + 60000 - t % 60000 ≤ u := by omega
    exact hmin u hustart hu2 (by omega)
  · intro t0 hm0 hdvd0 hlt0
    have hle : t + OneMinute - jsRem t OneMinute ≤ t0 := by
      rw [htmod, hOM]
      omega
    set start := t + OneMinute - jsRem t OneMinute with hstart
    have hsdvd : (60000 : Int) ∣ start := by
      rw [hstart, htmod, hOM]
      omega
    obtain ⟨a, ha⟩ := hdvd0
    obtain ⟨b, hb⟩ := hsdvd
    have hab : b ≤ a := by nlinarith [hle, ha, hb]
    set k := (a - b).toNat with hk
    have hkcast : (k : Int) = a - b := by rw [hk]; omega
    have ht0 : t0 = start + 60000 * k := by rw [ha, hb, hkcast]; ring
    obtain ⟨r, hr⟩ := nextMatchAux_reaches s k start (by rw [← ht0]; exact hm0)
    exact ⟨k + 1, r, hr⟩

/-- C2 amended witness at a concrete instance: minimality of the returned
boundary, and termination given the matching boundary 60000 after 30000. -/
theorem c2_nextMatch_earliest_witness :
    (matchesB everySched 60000 = true ∧ (60000 : Int) ∣ 60000 ∧ (30000 : Int) < 60000 ∧
      ∀ u : Int, 30000 < u → u < 60000 → (60000 : Int) ∣ u → matchesB everySched u = false) ∧
    (∃ (fuel : Nat) (r : Int), nextMatchF everySched fuel 30000 = some r) :=
  ⟨(c2_nextMatch_earliest everySched 30000 (by decide)).1 60000 1 (by decide),
   (c2_nextMatch_earliest everySched 30000 (by decide)).2 60000 (by decide)
     ⟨1, by decide⟩ (by decide)⟩

/-- The three possible outcomes of `registerJob`: a throw (leaving the engine
untouched), a diverging schedule parse, or success minting `counter + 1`. -/
lemma registerJob_cases (fs : String → Bool) (e : Engine) (sch : SchedArg)
    (tsk : TaskArg) (args : List String) (fork : Bool) :
    (∃ err, registerJob fs e sch tsk args fork = some (.error err, e)) ∨
    registerJob fs e sch tsk args fork = none ∨
    (∃ sched, registerJob fs e sch tsk args fork =
      some (.ok (e.counter + 1),
        { e with counter := e.counter + 1,
                 jobs := mapSet e.jobs (e.counter + 1) ⟨sched, tsk, args, fork⟩ })) := by
  unfold registerJob
  rcases sch with str | c | _
  · rcases hp : parseCron str with _ | res
    · simp [hp]
    · rcases res with er | sd
      · simp [hp]
      · rcases tsk with f | path | _
        · simp [hp]
          exact ⟨sd, rfl⟩
        · by_cases hfs : fs path
          · simp [hp, hfs]
            exact ⟨sd, rfl⟩
          · simp [hp, hfs]
        · simp [hp]
  · rcases tsk with f | path | _
    · simp [pok]
      exact ⟨c, rfl⟩
    · by_cases hfs : fs path
      · simp [pok, hfs]
        exact ⟨c, rfl⟩
      · simp [pok, hfs]
    · simp [pok]
  · simp

/-- `deregisterJob` never touches the id counter. -/
lemma deregisterJob_counter (e : Engine) (j : Int) :
    (deregisterJob e j).2.counter = e.counter := by
  unfold deregisterJob
  split_ifs <;> rfl

/-- C3 counterexample: `deregisterAllJobs` resets the id counter, so the very
same id (here 1) is handed out again by a later registration on the same
engine instance. -/
theorem c3_counterexample :
    (runOps (fun _ => true) {}
      [.reg (.text "* * * * *") (.func 0), .deregAll,
       .reg (.text "* * * * *") (.func 0)]).2 = [1, 1] := by decide

/-- C3 amended: as long as no `deregisterAllJobs` call interleaves, the ids
returned by successive `registerJob` calls are strictly increasing and all
strictly exceed the engine's current counter — `deregisterJob` alone never
causes reuse.  (`deregisterAllJobs` resets the counter to 0, so ids repeat
after it, per the counterexample.) -/
theorem c3_ids_increase (fs : String → Bool) (ops : List EngOp) (e : Engine)
    (h : EngOp.deregAll ∉ ops) :
    List.Chain' (· < ·) (runOps fs e ops).2 ∧
    ∀ id ∈ (runOps fs e ops).2, e.counter < id := by
  induction ops generalizing e with
  | nil => exact ⟨List.chain'_nil, by simp [runOps]⟩
  | cons op rest ih =>
    have hna : EngOp.deregAll ∉ rest := fun m => h (List.mem_cons_of_mem _ m)
    have hop : op ≠ EngOp.deregAll := fun eq => h (eq ▸ List.mem_cons_self _ _)
    cases op with
    | deregAll => exact absurd rfl hop
    | dereg j =>
      simp only [runOps]
      obtain ⟨hc, hgt⟩ := ih ((deregisterJob e j).2) hna
      exact ⟨hc, fun id hid => by
        have := hgt id hid
        rwa [deregisterJob_counter e j] at this⟩
    | reg sch tsk =>
      rcases registerJob_cases fs e sch tsk [] false with ⟨err, hr⟩ | hr | ⟨sched, hr⟩
      · simp only [runOps, hr]
        exact ih e hna
      · simp only [runOps, hr]
        exact ⟨List.chain'_nil, by simp⟩
      · simp only [runOps, hr]
        obtain ⟨hc, hgt⟩ := ih
          { e with counter := e.counter + 1,
                   jobs := mapSet e.jobs (e.counter + 1) ⟨sched, tsk, [], false⟩ } hna
        constructor
        · rw [List.chain'_cons']
          refine ⟨?_, hc⟩
          intro b hb
          have hbm := List.mem_of_mem_head? hb
          have hgtb := hgt b hbm
          simpa using hgtb
        · intro id hid
          rcases List.mem_cons.mp hid with rfl | hid
          · omega
          · have hgtb := hgt id hid
            simp at hgtb
            omega

/-- C3 amended witness at a concrete trace. -/
theorem c3_ids_increase_witness :
    List.Chain' (· < ·) ((runOps (fun _ => true) {}
      [.reg (.text "* * * * *") (.func 0), .dereg 1,
       .reg (.text "* * * * *") (.func 0)]).2) ∧
    ∀ id ∈ ((runOps (fun _ => true) {}
      [.reg (.text "* * * * *") (.func 0), .dereg 1,
       .reg (.text "* * * * *") (.func 0)]).2), ({} : Engine).counter < id :=
  c3_ids_increase (fun _ => true) _ {} (by decide)

/-- With step 0 the fill loop `for (n = lo; n <= hi; n += 0)` never leaves
its starting point: no iteration bound completes it. -/
lemma fillLoop_step0 (hi : Int) : ∀ (fuel : Nat) (n : Int), n ≤ hi →
    fillLoop hi 0 fuel n = none := by
  intro fuel
  induction fuel with
  | zero => intro n h; simp [fillLoop, h]
  | succ k ih =>
    intro n h
    simp only [fillLoop, if_pos h, add_zero]
    rw [ih n h]
    rfl

/-- For a positive step and enough fuel, the fill loop terminates and
produces exactly the members of `[lo, hi]` congruent to `lo` modulo the
step. -/
lemma fillLoop_mem (s : Int) (hs : 1 ≤ s) :
    ∀ (fuel : Nat) (lo hi : Int), hi < lo + s * fuel →
      ∃ l, fillLoop hi s fuel lo = some l ∧
        ∀ n : Int, n ∈ l ↔ lo ≤ n ∧ n ≤ hi ∧ s ∣ (n - lo) := by
  intro fuel
  induction fuel with
  | zero =>
    intro lo hi hf
    simp only [Nat.cast_zero, mul_zero, add_zero] at hf
    refine ⟨[], ?_, ?_⟩
    · simp only [fillLoop]
      rw [if_neg (by omega)]
    · intro n
      simp only [List.not_mem_nil, false_iff]
      rintro ⟨h1, h2, -⟩
      omega
  | succ k ih =>
    intro lo hi hf
    rw [show ((k + 1 : Nat) : Int) = (k : Int) + 1 by push_cast; ring,
      show s * ((k : Int) + 1) = s * (k : Int) + s by ring] at hf
    by_cases hlo : lo ≤ hi
    · obtain ⟨l, hl, hmem⟩ := ih (lo + s) hi (by linarith)
      refine ⟨lo :: l, ?_, ?_⟩
      · simp only [fillLoop, if_pos hlo, hl]
        rfl
      · intro n
        rw [List.mem_cons, hmem n]
        constructor
        · rintro (rfl | ⟨h1, h2, d, hd⟩)
          · exact ⟨le_refl _, hlo, ⟨0, by ring⟩⟩
          · exact ⟨by linarith, h2, ⟨d + 1, by linear_combination hd⟩⟩
        · rintro ⟨h1, h2, d, hd⟩
          by_cases hn : n = lo
          · exact .inl hn
          · right
            have hd0 : 0 < n - lo := by omega
            have hsle : s ≤ n - lo := Int.le_of_dvd hd0 ⟨d, hd⟩
            exact ⟨by linarith, h2, ⟨d - 1, by linear_combination hd⟩⟩
    · refine ⟨[], ?_, ?_⟩
      · simp only [fillLoop]
        rw [if_neg hlo]
      · intro n
        simp only [List.not_mem_nil, false_iff]
        rintro ⟨h1, h2, -⟩
        omega

/-- A list without the separator splits into itself alone. -/
lemma splitOnCh_not_mem (sep : Char) : ∀ cs : List Char, sep ∉ cs →
    splitOnCh sep cs = [cs]
  | [], _ => rfl
  | c :: rest, h => by
    have h1 : c ≠ sep := fun e => h (e ▸ List.mem_cons_self c rest)
    have h2 : sep ∉ rest := fun m => h (List.mem_cons_of_mem _ m)
    show (match splitOnCh sep rest with
      | [] => [[]]
      | t :: ts => if c = sep then [] :: t :: ts else (c :: t) :: ts) = [c :: rest]
    rw [splitOnCh_not_mem sep rest h2]
    simp [h1]

/-- Splitting `*/ds` on `/` yields the wildcard and the step literal. -/
lemma splitSlash (ds : List Char) (h : ('/' : Char) ∉ ds) :
    splitOnCh '/' ('*' :: '/' :: ds) = [['*'], ds] := by
  show (match splitOnCh '/' ('/' :: ds) with
    | [] => [[]]
    | t :: ts => if '*' = '/' then [] :: t :: ts else ('*' :: t) :: ts) = [['*'], ds]
  have inner : splitOnCh '/' ('/' :: ds) = [[], ds] := by
    show (match splitOnCh '/' ds with
      | [] => [[]]
      | t :: ts => if '/' = '/' then [] :: t :: ts else ('/' :: t) :: ts) = [[], ds]
    rw [splitOnCh_not_mem '/' ds h]
    simp
  rw [inner]
  simp

/-- A digit string contains no `/`. -/
lemma no_slash_of_digits (ds : List Char) (hdig : ds.all isDigitCh = true) :
    ('/' : Char) ∉ ds := by
  intro hm
  have := List.all_eq_true.mp hdig _ hm
  simp [isDigitCh] at this

/-- C6 counterexample: parsing the minute field `*/0` never terminates — the
step literal 0 is accepted by the step grammar, and the wildcard fill loop
then adds 0 forever; consequently the whole-expression parse of
`"*/0 * * * *"` never terminates either. -/
theorem c6_counterexample :
    (¬ ∃ (fuel : Nat) (res : Except CronErr (List Int)),
        parseFieldRaw 0 fuel ("*/0".data) = some res) ∧
    (¬ ∃ (fuel : Nat) (res : Except CronErr CronSched),
        parseCronL fuel ("*/0 * * * *".data) = some res) := by
  have hdiv : ∀ fuel : Nat, parseFieldRaw 0 fuel ("*/0".data) = none := by
    intro fuel
    have he : parseFieldRaw 0 fuel ("*/0".data) = (fillLoop 59 0 fuel 0).map Except.ok := rfl
    rw [he, fillLoop_step0 59 fuel 0 (by norm_num)]
    rfl
  constructor
  · rintro ⟨fuel, res, h⟩
    rw [hdiv fuel] at h
    exact Option.noConfusion h
  · rintro ⟨fuel, res, h⟩
    have he2 : parseCronL fuel ("*/0 * * * *".data) = none := by
      show pbind (parseFieldRaw 0 fuel ("*/0".data)) _ = none
      rw [hdiv fuel]
      rfl
    rw [he2] at h
    exact Option.noConfusion h

/-- Packaging of `fillLoop_mem` at the parser's default fuel. -/
lemma fill_pok (s : Int) (hs : 1 ≤ s) (lo hi : Int)
    (hb : hi < lo + s * (FillFuel : Int)) :
    ∃ l, Option.map Except.ok (fillLoop hi s FillFuel lo) = pok l ∧
      ∀ n : Int, n ∈ l ↔ lo ≤ n ∧ n ≤ hi ∧ s ∣ (n - lo) := by
  obtain ⟨l, hl, hmem⟩ := fillLoop_mem s hs FillFuel lo hi hb
  exact ⟨l, by rw [hl]; rfl, hmem⟩

/-- C6 amended: for every field position and every POSITIVE step literal,
parsing `*/step` terminates and retains exactly every step-th member of the
field's native domain starting at the domain minimum (the members of the
domain congruent to its minimum modulo the step).  For the step literal 0 the
parse diverges, per the counterexample. -/
theorem c6_wildcard_step (i : Nat) (hi5 : i < 5) (ds : List Char)
    (hne : ds ≠ []) (hdig : ds.all isDigitCh = true) (hpos : 1 ≤ digitsVal ds) :
    ∃ l, parseFieldRaw i FillFuel ('*' :: '/' :: ds) = pok l ∧
      ∀ n : Int, n ∈ l ↔ (wildRange i).1 ≤ n ∧ n ≤ (wildRange i).2 ∧
        ((digitsVal ds : Int)) ∣ (n - (wildRange i).1) := by
  have hsplit := splitSlash ds (no_slash_of_digits ds hdig)
  have hs1 : (1 : Int) ≤ (digitsVal ds : Int) := by exact_mod_cast hpos
  interval_cases i <;>
  · unfold parseFieldRaw
    rw [hsplit]
    simp only [List.getD_cons_zero, List.getD_cons_succ, List.getD_nil, ne_eq,
      not_true_eq_false, not_false_eq_true, if_neg, if_pos, wildRange, hne]
    rw [if_pos hdig]
    exact fill_pok _ hs1 _ _ (by unfold FillFuel; push_cast; omega)

/-- C6 amended witness: `*/2` in the day-of-week field. -/
theorem c6_wildcard_step_witness :
    ∃ l, parseFieldRaw 4 FillFuel ('*' :: '/' :: "2".data) = pok l ∧
      ∀ n : Int, n ∈ l ↔ (wildRange 4).1 ≤ n ∧ n ≤ (wildRange 4).2 ∧
        ((digitsVal "2".data : Int)) ∣ (n - (wildRange 4).1) :=
  c6_wildcard_step 4 (by decide) ("2".data) (by decide) (by decide) (by decide)

/-- C9: `registerJob` with a task path that does not exist throws the
"not found" error before any mutation: the returned engine state is exactly
the input state, so `listJobs` and the id counter are unchanged.  Stated both
for a schedule given as (valid) text and as an already-parsed schedule. -/
theorem c9_register_missing_module (fs : String → Bool) (e : Engine) (str : String)
    (sched : CronSched) (path : String) (args : List String) (fork : Bool)
    (hparse : parseCron str = pok sched) (hfs : fs path = false) :
    registerJob fs e (.text str) (.module path) args fork = some (.error .notFound, e) ∧
    registerJob fs e (.parsed sched) (.module path) args fork = some (.error .notFound, e) := by
  unfold registerJob
  simp [hparse, pok, hfs]

/-- C9 witness at a concrete instance. -/
theorem c9_register_missing_module_witness :
    registerJob (fun _ => false) {} (.text "* * * * *") (.module "nope") [] false =
      some (.error .notFound, {}) ∧
    registerJob (fun _ => false) {} (.parsed everySched) (.module "nope") [] false =
      some (.error .notFound, {}) :=
  c9_register_missing_module (fun _ => false) {} "* * * * *" everySched "nope" [] false
    (by decide) rfl

/-- `newToken()` never changes the machine's state field. -/
lemma newToken0_state (cfg : TokCfg) : (newToken0 cfg).state = cfg.state := by
  unfold newToken0
  split <;> rfl

/-- C7 counterexample: on the spec's example input the second token is NOT
`'arg"1" '` — `newToken` trims every saved token, so the trailing space
inside the double quotes is dropped. -/
theorem c7_counterexample :
    parseCommandLine (strCodes "./sampleTask.js \"arg\\\"1\\\" \" \"arg 2\"") ≠
      .ok [strCodes "./sampleTask.js", strCodes "arg\"1\" ", strCodes "arg 2"] := by
  decide

/-- C7 amended: the example input tokenizes to `./sampleTask.js`, `arg"1"`
(trailing space trimmed, as the repository's own unit test expects) and
`arg 2`; and every input whose run ends in the single-quoted (resp.
double-quoted) state throws the unbalanced-single (resp. -double) error. -/
theorem c7_tokenize_amended :
    parseCommandLine (strCodes "./sampleTask.js \"arg\\\"1\\\" \" \"arg 2\"") =
      .ok [strCodes "./sampleTask.js", strCodes "arg\"1\"", strCodes "arg 2"] ∧
    (∀ (cs : List Nat) (cfg : TokCfg), runTok {} cs = .ok cfg →
      cfg.state = .singleQuoted → parseCommandLine cs = .error .unbalancedSingle) ∧
    (∀ (cs : List Nat) (cfg : TokCfg), runTok {} cs = .ok cfg →
      cfg.state = .doubleQuoted → parseCommandLine cs = .error .unbalancedDouble) := by
  refine ⟨by decide, ?_, ?_⟩
  · intro cs cfg hrun hst
    unfold parseCommandLine
    rw [hrun]
    unfold finishTok
    simp [newToken0_state, hst]
  · intro cs cfg hrun hst
    unfold parseCommandLine
    rw [hrun]
    unfold finishTok
    simp [newToken0_state, hst]

/-- C7 witness: the unbalanced-quote branches at concrete inputs. -/
theorem c7_tokenize_amended_witness :
    parseCommandLine (strCodes "'abc") = .error .unbalancedSingle ∧
    parseCommandLine (strCodes "\"abc") = .error .unbalancedDouble :=
  ⟨c7_tokenize_amended.2.1 (strCodes "'abc")
      ⟨.singleQuoted, .separator, [], 0, [97, 98, 99], []⟩ (by decide) rfl,
   c7_tokenize_amended.2.2 (strCodes "\"abc")
      ⟨.doubleQuoted, .separator, [], 0, [97, 98, 99], []⟩ (by decide) rfl⟩

/-- C8 counterexample: inside double quotes, after the escape `\\` the
machine STAYS in the escape state, so the following `b` is decoded as a
backspace escape and the closing quote is consumed as an escaped quote
(yielding the token codes `[97, 92, 8, 34]`, not `a\b`); and `\x41B` decodes
to `A` but swallows the following `B`. -/
theorem c8_counterexample :
    parseCommandLine (strCodes "\"a\\\\b\"") = .ok [[97, 92, 8, 34]] ∧
    parseCommandLine (strCodes "\"a\\\\b\"") ≠ .ok [[97, 92, 98]] ∧
    parseCommandLine (strCodes "\"\\x41B\"") = .ok [[65]] ∧
    parseCommandLine (strCodes "\"\\x41B\"") ≠ .ok [[65, 66]] := by
  refine ⟨by decide, by decide, by decide, by decide⟩

/-- C8 amended: a quote/backslash escape and a control-letter escape each
contribute exactly one character to the token but leave the machine in the
escape state (so the immediately following character is again interpreted as
an escape body, not as an ordinary quoted character); and once a hex escape's
digit buffer is full, the step's result does not depend on the current
character at all — the character following the digits is swallowed. -/
theorem c8_escape_amended (cfg : TokCfg) (c : Nat) :
    (cfg.state = .charEscape → c = 39 ∨ c = 34 ∨ c = 92 →
      stepTok cfg c = .ok { cfg with token := cfg.token ++ [c] } ∧
      ({ cfg with token := cfg.token ++ [c] } : TokCfg).state = .charEscape) ∧
    (cfg.state = .charEscape →
        c = 98 ∨ c = 116 ∨ c = 110 ∨ c = 118 ∨ c = 102 ∨ c = 114 →
      stepTok cfg c = .ok { cfg with token := cfg.token ++ [letterToChar c] } ∧
      ({ cfg with token := cfg.token ++ [letterToChar c] } : TokCfg).state = .charEscape) ∧
    (cfg.state = .hexCode → cfg.codeLen ≤ cfg.code.length →
      ∀ c' : Nat, stepTok cfg c = stepTok cfg c') := by
  refine ⟨?_, ?_, ?_⟩
  · intro hst hc
    constructor
    · unfold stepTok
      rw [hst]
      exact if_pos hc
    · simp [hst]
  · intro hst hc
    have h1 : ¬(c = 39 ∨ c = 34 ∨ c = 92) := by
      rcases hc with rfl | rfl | rfl | rfl | rfl | rfl <;> decide
    constructor
    · unfold stepTok
      rw [hst]
      rw [if_neg h1]
      exact if_pos hc
    · simp [hst]
  · intro hst hlen c'
    have hn : ¬ cfg.code.length < cfg.codeLen := by omega
    simp only [stepTok, hst]
    rw [if_neg hn, if_neg hn]

/-- C8 amended witness at a concrete machine configuration. -/
theorem c8_escape_amended_witness :
    stepTok { state := .charEscape, prev := .doubleQuoted, code := [], codeLen := 0,
              token := [], tokens := [] } 92 =
      .ok { state := .charEscape, prev := .doubleQuoted, code := [], codeLen := 0,
            token := [92], tokens := [] } ∧
    ({ state := .charEscape, prev := .doubleQuoted, code := [], codeLen := 0,
       token := [92], tokens := [] } : TokCfg).state = .charEscape :=
  (c8_escape_amended
    { state := .charEscape, prev := .doubleQuoted, code := [], codeLen := 0,
      token := [], tokens := [] } 92).1 rfl (.inr (.inr rfl))

/-- C10: a `CronEngine` constructed with no options or with
`delayStart: false` is running as soon as the constructor returns; with
`delayStart: true` it stays stopped until `start()`. -/
theorem c10_delayStart_isRunning (now : Int) :
    isRunning (mkEngineDefault now) = true ∧
    isRunning (mkEngine false now) = true ∧
    isRunning (mkEngine true now) = false := by
  simp [mkEngineDefault, mkEngine, engineStart, setTimerInit, isRunning]

/-! ## Validation: the repository's unit tests replayed on the embedding

These reproduce cases of `tests/CronSchedule.test.js` and
`tests/parseCommandLine.test.js` on the model, tying the embedding to the
source's observed behavior. -/

/-- The default expression enumerates the full native domains. -/
theorem replay_parse_star : parseCron "* * * * *" = pok everySched := by decide

/-- Any number and type of blanks is accepted. -/
theorem replay_parse_blanks : parseCron "\t*\t*  *  *\t* " = pok everySched := by decide

/-- Single values, named ranges with steps, underscore values, aliases, and
the error classes of the repository's parser tests. -/
theorem replay_parse_fields :
    parseCron "24 * * * *" = pok { everySched with minute := [24] } ∧
    (parseCron "* * _1,_2,_3 * *").map (·.map CronSched.rev) = pok [-1, -2, -3] ∧
    (parseCron "* * _1,_2,_3 * *").map (·.map CronSched.dom) = pok [] ∧
    (parseCron "* * * Mar,Jun-sep/3 *").map (·.map CronSched.month) = pok [2, 5, 8] ∧
    (parseCron "* * * * tuE,thu-SAT/2").map (·.map CronSched.dow) = pok [2, 4, 6] ∧
    (parseCron "10-20/2 * * * *").map (·.map CronSched.minute) =
      pok [10, 12, 14, 16, 18, 20] ∧
    parseCron "@hourly" = pok { everySched with minute := [0] } ∧
    parseCron "@yearly" =
      pok { everySched with minute := [0], hour := [0], dom := [1], month := [0] } ∧
    parseCron "@reboot" = perr .invalidAlias ∧
    parseCron "* * *" = perr (.invalidFieldCount 3) ∧
    parseCron "66 * * * *" = perr (.illegalValue 0) ∧
    parseCron "* * 3.4 * *" = perr (.invalidValue 2) ∧
    parseCron "* * _3-_1 * *" = perr (.invalidValue 2) ∧
    parseCron "3-1 * * * *" = perr (.invalidRange 0) := by
  refine ⟨by decide, by decide, by decide, by decide, by decide, by decide, by decide,
    by decide, by decide, by decide, by decide, by decide, by decide, by decide⟩

/-- The matcher test cases: 2025-06-18T03:23 = 1750216980000 (local = UTC),
and the seconds check rejects 03:23:45. -/
theorem replay_matches_star :
    matchesB everySched 1750216980000 = true ∧
    matchesB everySched (1750216980000 + 45000) = false := by
  refine ⟨by decide, by decide⟩

/-- The tokenizer test cases, including both unbalanced-quote errors and the
complex escaped input (whose second token the repository's test expects
WITHOUT its trailing space). -/
theorem replay_tokenizer :
    parseCommandLine (strCodes "AAAA BBBB CCCC") =
      .ok [strCodes "AAAA", strCodes "BBBB", strCodes "CCCC"] ∧
    parseCommandLine (strCodes "  AAAA    BBBB    CCCC  ") =
      .ok [strCodes "AAAA", strCodes "BBBB", strCodes "CCCC"] ∧
    parseCommandLine (strCodes "\"AA  AA\" \"B  BBB\" \"CCC  C\"") =
      .ok [strCodes "AA  AA", strCodes "B  BBB", strCodes "CCC  C"] ∧
    parseCommandLine (strCodes "\"AAAA \"BBBB\" \"CCCC\"") = .error .unbalancedDouble ∧
    parseCommandLine (strCodes "AAAA 'BBBB CCCC") = .error .unbalancedSingle ∧
    parseCommandLine (strCodes "./sampleTask.js \"arg\\\"1\\\" \" \" arg 2\"") =
      .ok [strCodes "./sampleTask.js", strCodes "arg\"1\"", strCodes "arg 2"] := by
  refine ⟨by decide, by decide, by decide, by decide, by decide, by decide⟩

/-- The engine model on the job-management tests: a registered job gets id 1,
a missing module path fails eagerly, and the engine is running by default. -/
theorem replay_engine :
    registerJob (fun _ => true) {} (.text "* * * * *") (.func 0) [] false =
      some (.ok 1, { jobs := [(1, ⟨everySched, .func 0, [], false⟩)], counter := 1 }) ∧
    registerJob (fun _ => false) {} (.text "* * * * *") (.module "x") [] false =
      some (.error .notFound, {}) ∧
    isRunning (mkEngineDefault 123456) = true ∧
    isRunning (mkEngine true 123456) = false := by
  refine ⟨by decide, by decide, by decide, by decide⟩

end Cron
